import Mathlib

/-!
Verification of the spherical-to-pinhole resampling module
(`src/base/sphere_camera.h` of SphereSfM).

The repository ships only the header: declarations, default arguments and
doc comments are taken from the source, while every function body is
modelled from the specification (each such definition carries a doc
comment starting `Modelled from the spec:`).  Real-valued quantities
(`double` in the C++) are modelled by `ℝ`; the exact identities proved
here imply the numeric tolerances stated in the specification.
-/

namespace SphereCamera

open Real

/-- Error kinds of the module, from §7 of the specification. -/
inductive SphereError where
  | InvalidCameraDimensions
  | InvalidRotationMatrix
  | ConversionError
  | MissingRotation
  | SourceLoadFailure
  | OutputWriteFailure
  deriving DecidableEq, Repr

/-- A 2D point (normalized image coordinates, `Eigen::Vector2d`). -/
structure V2 where
  x : ℝ
  y : ℝ

/-- A 3D vector (bearing vectors, `Eigen::Vector3d`). -/
structure V3 where
  x : ℝ
  y : ℝ
  z : ℝ

/-- Euclidean norm of a 3D vector. -/
noncomputable def vecNorm (v : V3) : ℝ :=
  Real.sqrt (v.x ^ 2 + v.y ^ 2 + v.z ^ 2)

/-- A 3×3 real matrix (`Eigen::Matrix3d`). -/
abbrev Mat3 := Matrix (Fin 3) (Fin 3) ℝ

/-- Apply a 3×3 matrix to a 3D vector. -/
noncomputable def matVec (R : Mat3) (v : V3) : V3 :=
  ⟨R 0 0 * v.x + R 0 1 * v.y + R 0 2 * v.z,
   R 1 0 * v.x + R 1 1 * v.y + R 1 2 * v.z,
   R 2 0 * v.x + R 2 1 * v.y + R 2 2 * v.z⟩

/-- A bitmap.  Pixel storage and the interpolated point-sampling primitive
are external collaborators (§1 of the specification), so the sampling
primitive is carried abstractly as a function from coordinates to a
sampled value. -/
structure Bitmap where
  width : ℤ
  height : ℤ
  sample : ℝ → ℝ → ℝ

/-- A camera descriptor.  Width and height are stored; the forward
projection (bearing vector → pixel coordinate) and backward projection
(pixel coordinate → bearing vector) primitives are external collaborators
(§1, §6 of the specification) carried as functions. -/
structure Camera where
  width : ℤ
  height : ℤ
  forwardProj : V3 → ℝ × ℝ
  backProj : ℝ × ℝ → V3

/-- Both dimensions of a camera are positive. -/
def dimsOk (c : Camera) : Prop := 0 < c.width ∧ 0 < c.height

instance (c : Camera) : Decidable (dimsOk c) := by
  unfold dimsOk; infer_instance

/-! ### CameraFactory -/

/-- `PinholeFocalLength` (header line 114; the default
`field_of_view = 45.0` is the header's default argument).  Modelled from
the spec: `(height / 2) / tan(fov_radians / 2)` with `fov` in degrees. -/
noncomputable def PinholeFocalLength (height : ℤ) (field_of_view : ℝ := 45.0) : ℝ :=
  ((height : ℝ) / 2) / Real.tan (field_of_view * π / 180 / 2)

/-- Backward projection of a pinhole camera: pixel → normalized point →
unit bearing vector.  Modelled from the spec (§4.3, §6). -/
noncomputable def pinholeBackProj (f cx cy : ℝ) (p : ℝ × ℝ) : V3 :=
  let nx := (p.1 - cx) / f
  let ny := (p.2 - cy) / f
  let n := vecNorm ⟨nx, ny, 1⟩
  ⟨nx / n, ny / n, 1 / n⟩

/-- Forward projection of a pinhole camera: bearing vector → pixel.
Modelled from the spec (§4.3, §6). -/
noncomputable def pinholeForwardProj (f cx cy : ℝ) (v : V3) : ℝ × ℝ :=
  (f * (v.x / v.z) + cx, f * (v.y / v.z) + cy)

/-- `PinholeCamera` (header lines 121–122; the default
`field_of_view = 45.0` is the header's default argument).  Modelled from
the spec: principal point at `(width/2, height/2)`, focal length from
`PinholeFocalLength`; fails with `InvalidCameraDimensions` if `width ≤ 0`
or `height ≤ 0`. -/
noncomputable def PinholeCamera (width height : ℤ)
    (field_of_view : ℝ := 45.0) : Except SphereError Camera :=
  if 0 < width ∧ 0 < height then
    .ok { width := width, height := height,
          forwardProj := pinholeForwardProj
            (PinholeFocalLength height field_of_view)
            ((width : ℝ) / 2) ((height : ℝ) / 2),
          backProj := pinholeBackProj
            (PinholeFocalLength height field_of_view)
            ((width : ℝ) / 2) ((height : ℝ) / 2) }
  else .error .InvalidCameraDimensions

/-- Two-argument arctangent (used by the equirectangular forward
projection). -/
noncomputable def atan2 (y x : ℝ) : ℝ :=
  if 0 < x then Real.arctan (y / x)
  else if x < 0 then
    (if 0 ≤ y then Real.arctan (y / x) + π else Real.arctan (y / x) - π)
  else
    (if 0 < y then π / 2 else if y < 0 then -(π / 2) else 0)

/-- Forward projection of the equirectangular sphere camera: bearing
vector → pixel, pixel x linear in longitude over [−180°, 180°], pixel y
linear in latitude over [+90°, −90°].  Modelled from the spec (§4.3). -/
noncomputable def sphereForwardProj (w h : ℤ) (v : V3) : ℝ × ℝ :=
  let lon := atan2 v.x v.z * 180 / π
  let lat := Real.arcsin (-v.y / vecNorm v) * 180 / π
  ((lon + 180) / 360 * (w : ℝ), (90 - lat) / 180 * (h : ℝ))

/-- Backward projection of the equirectangular sphere camera: pixel →
bearing vector.  Modelled from the spec (§4.3). -/
noncomputable def sphereBackProj (w h : ℤ) (p : ℝ × ℝ) : V3 :=
  let lon := (p.1 / (w : ℝ) * 360 - 180) * π / 180
  let lat := (90 - p.2 / (h : ℝ) * 180) * π / 180
  ⟨Real.cos lat * Real.sin lon, -Real.sin lat, Real.cos lat * Real.cos lon⟩

/-- `SphereCamera` (header line 125).  Modelled from the spec: builds the
equirectangular camera; no aspect-ratio enforcement. -/
noncomputable def SphereCamera (width height : ℤ) : Camera :=
  { width := width, height := height,
    forwardProj := sphereForwardProj width height,
    backProj := sphereBackProj width height }

/-! ### CoordinateConverter -/

/-- Mean focal-length scale used by the error conversions.  Modelled from
the spec: the implementation file is absent; §4.1 says the conversion
scales by the local derivative of the pinhole unprojection at the
principal point, with a factor depending on width and height, so the
factor is modelled as the mean of the focal lengths the pinhole factory
derives for the width and for the height (default field of view). -/
noncomputable def errorScale (width height : ℕ) : ℝ :=
  (PinholeFocalLength (width : ℤ) + PinholeFocalLength (height : ℤ)) / 2

/-- `ImagePlaneToCameraPlaneError` (header lines 33–34).  Modelled from
the spec: scales a pixel-space error magnitude into the normalized-plane
error magnitude by dividing by `errorScale`. -/
noncomputable def ImagePlaneToCameraPlaneError (width height : ℕ)
    (image_error : ℝ) : ℝ :=
  image_error / errorScale width height

/-- `CameraPlaneToImagePlaneError` (header lines 45–46).  Modelled from
the spec: the inverse scaling, multiplying by `errorScale`. -/
noncomputable def CameraPlaneToImagePlaneError (width height : ℕ)
    (camera_error : ℝ) : ℝ :=
  camera_error * errorScale width height

/-- `NormalizedPointToBearingVector` (header lines 79–80).  Modelled from
the spec: embeds `p` as `(p.x, p.y, 1)` and normalizes; fails with
`ConversionError` if the embedded vector is degenerate (zero norm). -/
noncomputable def NormalizedPointToBearingVector (p : V2) :
    Except SphereError V3 :=
  let n := vecNorm ⟨p.x, p.y, 1⟩
  if n = 0 then .error .ConversionError
  else .ok ⟨p.x / n, p.y / n, 1 / n⟩

/-- `BearingVectorToNormalizedPoint` (header lines 92–93).  Modelled from
the spec: divides `(v.x, v.y)` by `v.z`; fails with `ConversionError`
when `v.z ≤ 0`. -/
noncomputable def BearingVectorToNormalizedPoint (v : V3) :
    Except SphereError V2 :=
  if 0 < v.z then .ok ⟨v.x / v.z, v.y / v.z⟩
  else .error .ConversionError

/-! ### RotationCatalog -/

/-- `GetCubicRotations` (header line 135).  Modelled from the spec:
exactly six entries, one per cube face (front, right, back, left, up,
down in the camera-local convention of Torii et al.), each a fixed
proper-rotation matrix; the table is a constant. -/
noncomputable def GetCubicRotations : List (ℤ × Mat3) :=
  [(0, !![1, 0, 0; 0, 1, 0; 0, 0, 1]),
   (1, !![0, 0, 1; 0, 1, 0; -1, 0, 0]),
   (2, !![-1, 0, 0; 0, 1, 0; 0, 0, -1]),
   (3, !![0, 0, -1; 0, 1, 0; 1, 0, 0]),
   (4, !![1, 0, 0; 0, 0, -1; 0, 1, 0]),
   (5, !![1, 0, 0; 0, 0, 1; 0, -1, 0])]

/-! ### Resampler -/

/-- Tolerance of the rotation-matrix orthonormality check.  Modelled from
the spec: the tolerance value itself is unspecified; §8 states the
orthonormality properties within `1e-9`, which is adopted here. -/
noncomputable def rotationTolerance : ℝ := 1e-9

/-- A matrix is orthonormal with determinant +1 within tolerance `tol`:
every entry of `R·Rᵀ − I` and the deviation of `det R` from 1 are bounded
by `tol` (§3, §4.4 of the specification). -/
def IsRotationWithin (tol : ℝ) (R : Mat3) : Prop :=
  (∀ i j, |(R * R.transpose - 1) i j| ≤ tol) ∧ |R.det - 1| ≤ tol

open Classical in
/-- `SphericalToPatch` (header lines 150–152).  Modelled from the spec
(§4.4): validates the rotation (checked first, in the order §4.4 lists
the failure conditions) and then the camera dimensions; on success fills
the output patch by inverse-mapping every destination pixel through the
pinhole backward projection, the rotation, and the spherical forward
projection, sampling the source with longitude wrap and latitude
clamp. -/
noncomputable def SphericalToPatch (sphere_camera : Camera)
    (sphere_bitmap : Bitmap) (rotation : Mat3) (pinhole_camera : Camera) :
    Except SphereError Bitmap :=
  if IsRotationWithin rotationTolerance rotation then
    if dimsOk sphere_camera ∧ dimsOk pinhole_camera then
      .ok { width := pinhole_camera.width, height := pinhole_camera.height,
            sample := fun u v =>
              let s := sphere_camera.forwardProj
                (matVec rotation (pinhole_camera.backProj (u, v)))
              let wrapped := s.1 -
                (sphere_camera.width : ℝ) * ⌊s.1 / (sphere_camera.width : ℝ)⌋
              let clamped :=
                max 0 (min ((sphere_camera.height : ℝ) - 1) s.2)
              sphere_bitmap.sample wrapped clamped }
    else .error .InvalidCameraDimensions
  else .error .InvalidRotationMatrix

open Classical in
/-- `SphericalToTangent` (header lines 161–164).  Modelled from the spec
(§4.4): same validation as `SphericalToPatch`; on success the rotated
bearing vector is projected onto the tangent (gnomonic) plane and the
tangent coordinates are mapped to source pixels by the linearized
equirectangular scale at the patch center, again with longitude wrap and
latitude clamp. -/
noncomputable def SphericalToTangent (sphere_camera : Camera)
    (sphere_bitmap : Bitmap) (rotation : Mat3) (pinhole_camera : Camera) :
    Except SphereError Bitmap :=
  if IsRotationWithin rotationTolerance rotation then
    if dimsOk sphere_camera ∧ dimsOk pinhole_camera then
      .ok { width := pinhole_camera.width, height := pinhole_camera.height,
            sample := fun u v =>
              let b := matVec rotation (pinhole_camera.backProj (u, v))
              let sx := (sphere_camera.width : ℝ) / 2 +
                (sphere_camera.width : ℝ) / (2 * π) * Real.arctan (b.x / b.z)
              let sy := (sphere_camera.height : ℝ) / 2 +
                (sphere_camera.height : ℝ) / π * Real.arctan (b.y / b.z)
              let wrapped := sx -
                (sphere_camera.width : ℝ) * ⌊sx / (sphere_camera.width : ℝ)⌋
              let clamped :=
                max 0 (min ((sphere_camera.height : ℝ) - 1) sy)
              sphere_bitmap.sample wrapped clamped }
    else .error .InvalidCameraDimensions
  else .error .InvalidRotationMatrix

/-! ### BatchProjector -/

/-- Output filename deterministically derived from the image id (§4.5,
§6 of the specification). -/
def pinholeImagePath (output_path : String) (id : ℤ) : String :=
  output_path ++ "/" ++ toString id ++ ".jpg"

/-- The per-id outcome of the batch operation.  Modelled from the spec
(§4.5, §7): look up the id's rotation (`MissingRotation` if absent),
invoke the selected Resampler variant, and on success record the output
path derived from the id; one id's failure is reported in its own
outcome. -/
noncomputable def pinholeOutcome (sphere_camera : Camera)
    (sphere_bitmap : Bitmap) (pinhole_camera : Camera)
    (output_path : String) (rotations : List (ℤ × Mat3))
    (tangent_proj : Bool) (id : ℤ) : Except SphereError String :=
  match rotations.lookup id with
  | none => .error .MissingRotation
  | some R =>
      (if tangent_proj then
          SphericalToTangent sphere_camera sphere_bitmap R pinhole_camera
        else
          SphericalToPatch sphere_camera sphere_bitmap R pinhole_camera).map
        (fun _ => pinholeImagePath output_path id)

/-- `SphericalToPinhole` (header lines 177–182; the default
`tangent_proj = true` is the header's default argument).  Modelled from
the spec (§4.5, §7): for each id in the given order, produce its outcome;
the batch-level result is the ordered sequence of per-id outcomes. -/
noncomputable def SphericalToPinhole (sphere_camera : Camera)
    (sphere_bitmap : Bitmap) (sphere_path : String)
    (pinhole_camera : Camera) (output_path : String)
    (image_ids : List ℤ) (rotations : List (ℤ × Mat3))
    (tangent_proj : Bool := true) : List (Except SphereError String) :=
  image_ids.map
    (pinholeOutcome sphere_camera sphere_bitmap pinhole_camera output_path
      rotations tangent_proj)

/-! ## Helper lemmas -/

/-- The norm of `(x, y, 1)` is at least 1, hence positive. -/
lemma one_le_embedNorm (p : V2) : 1 ≤ vecNorm ⟨p.x, p.y, 1⟩ := by
  unfold vecNorm
  have h1 : (1 : ℝ) = Real.sqrt 1 := (Real.sqrt_one).symm
  rw [h1]
  apply Real.sqrt_le_sqrt
  nlinarith [sq_nonneg p.x, sq_nonneg p.y]

lemma embedNorm_pos (p : V2) : 0 < vecNorm ⟨p.x, p.y, 1⟩ :=
  lt_of_lt_of_le one_pos (one_le_embedNorm p)

lemma embedNorm_sq (p : V2) :
    vecNorm ⟨p.x, p.y, 1⟩ ^ 2 = p.x ^ 2 + p.y ^ 2 + 1 := by
  show Real.sqrt (p.x ^ 2 + p.y ^ 2 + 1 ^ 2) ^ 2 = p.x ^ 2 + p.y ^ 2 + 1
  rw [one_pow]
  exact Real.sq_sqrt (by nlinarith [sq_nonneg p.x, sq_nonneg p.y])

/-- The components produced by `NormalizedPointToBearingVector`. -/
lemma NormalizedPointToBearingVector_eq (p : V2) :
    NormalizedPointToBearingVector p =
      .ok ⟨p.x / vecNorm ⟨p.x, p.y, 1⟩, p.y / vecNorm ⟨p.x, p.y, 1⟩,
           1 / vecNorm ⟨p.x, p.y, 1⟩⟩ := by
  unfold NormalizedPointToBearingVector
  rw [if_neg (ne_of_gt (embedNorm_pos p))]

/-- The tangent of half the default field of view (in radians) is
positive: `0 < tan(45° · π/180 / 2) = tan(π/8)`. -/
lemma tan_default_half_fov_pos : 0 < Real.tan ((45.0 : ℝ) * π / 180 / 2) := by
  have hpi := Real.pi_pos
  have h45 : (45.0 : ℝ) = 45 := by norm_num
  rw [h45]
  apply Real.tan_pos_of_pos_of_lt_pi_div_two
  · linarith
  · linarith

/-- The focal length derived for a positive height (default fov) is
positive. -/
lemma pinholeFocalLength_pos {h : ℤ} (hh : 0 < h) :
    0 < PinholeFocalLength h := by
  unfold PinholeFocalLength
  apply div_pos
  · have : (0 : ℝ) < (h : ℝ) := by exact_mod_cast hh
    linarith
  · exact tan_default_half_fov_pos

/-- The error-conversion scale factor is positive for positive
dimensions. -/
lemma errorScale_pos {w h : ℕ} (hw : 0 < w) (hh : 0 < h) :
    0 < errorScale w h := by
  unfold errorScale
  have h1 : 0 < PinholeFocalLength (w : ℤ) :=
    pinholeFocalLength_pos (by exact_mod_cast hw)
  have h2 : 0 < PinholeFocalLength (h : ℤ) :=
    pinholeFocalLength_pos (by exact_mod_cast hh)
  linarith

/-! ## Claim theorems -/

/-- C3: for every normalized point `p`,
`BearingVectorToNormalizedPoint (NormalizedPointToBearingVector p)` is
defined and equals `p` exactly in each coordinate — in particular within
the stated absolute tolerance of `1e-9`. -/
theorem roundtrip_normalized_point (p : V2) :
    ∃ q : V2, (NormalizedPointToBearingVector p).bind
        BearingVectorToNormalizedPoint = .ok q ∧
      |q.x - p.x| ≤ 1e-9 ∧ |q.y - p.y| ≤ 1e-9 := by
  have hn := embedNorm_pos p
  refine ⟨⟨p.x, p.y⟩, ?_, by norm_num, by norm_num⟩
  rw [NormalizedPointToBearingVector_eq]
  show BearingVectorToNormalizedPoint _ = _
  unfold BearingVectorToNormalizedPoint
  rw [if_pos (by positivity)]
  have hne : vecNorm ⟨p.x, p.y, 1⟩ ≠ 0 := ne_of_gt hn
  simp only [Except.ok.injEq, V2.mk.injEq]
  constructor <;> (field_simp)

/-- C5: `NormalizedPointToBearingVector` never fails for a (finite) real
point, returns exactly the normalization of `(p.x, p.y, 1)`, and the
result has Euclidean norm exactly 1 — in particular within `1e-12`. -/
theorem bearing_vector_unit_norm (p : V2) :
    ∃ v : V3, NormalizedPointToBearingVector p = .ok v ∧
      v.x = p.x / vecNorm ⟨p.x, p.y, 1⟩ ∧
      v.y = p.y / vecNorm ⟨p.x, p.y, 1⟩ ∧
      v.z = 1 / vecNorm ⟨p.x, p.y, 1⟩ ∧
      vecNorm v = 1 := by
  have hn := embedNorm_pos p
  have hne : vecNorm ⟨p.x, p.y, 1⟩ ≠ 0 := ne_of_gt hn
  refine ⟨_, NormalizedPointToBearingVector_eq p, rfl, rfl, rfl, ?_⟩
  have hsq := embedNorm_sq p
  show Real.sqrt ((p.x / vecNorm ⟨p.x, p.y, 1⟩) ^ 2 +
      (p.y / vecNorm ⟨p.x, p.y, 1⟩) ^ 2 + (1 / vecNorm ⟨p.x, p.y, 1⟩) ^ 2) = 1
  have key : (p.x / vecNorm ⟨p.x, p.y, 1⟩) ^ 2 +
      (p.y / vecNorm ⟨p.x, p.y, 1⟩) ^ 2 + (1 / vecNorm ⟨p.x, p.y, 1⟩) ^ 2 = 1 := by
    field_simp
    linarith
  rw [key, Real.sqrt_one]

/-- C6: `BearingVectorToNormalizedPoint v` returns `(v.x / v.z, v.y / v.z)`
exactly when `v.z > 0`, and fails with `ConversionError` exactly when
`v.z ≤ 0`. -/
theorem bearing_to_point_cases (v : V3) :
    (0 < v.z → BearingVectorToNormalizedPoint v = .ok ⟨v.x / v.z, v.y / v.z⟩) ∧
    (v.z ≤ 0 → BearingVectorToNormalizedPoint v = .error .ConversionError) := by
  constructor
  · intro h
    unfold BearingVectorToNormalizedPoint
    rw [if_pos h]
  · intro h
    unfold BearingVectorToNormalizedPoint
    rw [if_neg (not_lt.mpr h)]

/-- Witness for C6 at the concrete inputs `(0, 0, 1)` and `(0, 0, -1)`. -/
theorem bearing_to_point_cases_witness :
    BearingVectorToNormalizedPoint ⟨0, 0, 1⟩ = .ok ⟨0 / 1, 0 / 1⟩ ∧
    BearingVectorToNormalizedPoint ⟨0, 0, -1⟩ = .error .ConversionError :=
  ⟨(bearing_to_point_cases ⟨0, 0, 1⟩).1 (by norm_num),
   (bearing_to_point_cases ⟨0, 0, -1⟩).2 (by norm_num)⟩

/-- C4: for positive `width` and `height`, converting an image-plane
error to the camera plane and back returns the original error exactly —
in particular within the stated tolerance of `1e-9`. -/
theorem roundtrip_image_plane_error (width height : ℕ) (image_error : ℝ)
    (hw : 0 < width) (hh : 0 < height) :
    CameraPlaneToImagePlaneError width height
        (ImagePlaneToCameraPlaneError width height image_error) = image_error ∧
      |CameraPlaneToImagePlaneError width height
          (ImagePlaneToCameraPlaneError width height image_error) -
        image_error| ≤ 1e-9 := by
  have hs : errorScale width height ≠ 0 := ne_of_gt (errorScale_pos hw hh)
  have hexact : CameraPlaneToImagePlaneError width height
      (ImagePlaneToCameraPlaneError width height image_error) = image_error := by
    unfold CameraPlaneToImagePlaneError ImagePlaneToCameraPlaneError
    field_simp
  exact ⟨hexact, by rw [hexact]; norm_num⟩

/-- Witness for C4 at `width = 100`, `height = 50`, `image_error = 2`. -/
theorem roundtrip_image_plane_error_witness :
    CameraPlaneToImagePlaneError 100 50
        (ImagePlaneToCameraPlaneError 100 50 2) = 2 :=
  (roundtrip_image_plane_error 100 50 2 (by norm_num) (by norm_num)).1

/-- C8: for positive height and `0 < fov < 180`, `PinholeFocalLength`
computes `(height / 2) / tan(fov · π/180 / 2)`; in particular
`PinholeFocalLength 100 90 = 50`. -/
theorem pinhole_focal_length_formula (height : ℤ) (fov : ℝ)
    (hh : 0 < height) (h1 : 0 < fov) (h2 : fov < 180) :
    PinholeFocalLength height fov =
        ((height : ℝ) / 2) / Real.tan (fov * π / 180 / 2) ∧
      PinholeFocalLength 100 90 = 50 := by
  constructor
  · rfl
  · unfold PinholeFocalLength
    rw [show (90 : ℝ) * π / 180 / 2 = π / 4 by ring, Real.tan_pi_div_four]
    norm_num

/-- Witness for C8 at `height = 100`, `fov = 90`. -/
theorem pinhole_focal_length_formula_witness :
    PinholeFocalLength 100 90 = 50 :=
  (pinhole_focal_length_formula 100 90 (by norm_num) (by norm_num)
    (by norm_num)).2

/-- The identity matrix passes the orthonormality check. -/
lemma isRotationWithin_one : IsRotationWithin rotationTolerance (1 : Mat3) := by
  constructor
  · intro i j
    rw [Matrix.transpose_one, mul_one, sub_self]
    show |(0 : Mat3) i j| ≤ rotationTolerance
    rw [Matrix.zero_apply, abs_zero]
    unfold rotationTolerance
    norm_num
  · rw [Matrix.det_one, sub_self, abs_zero]
    unfold rotationTolerance
    norm_num

/-- The zero matrix fails the orthonormality check. -/
lemma not_isRotationWithin_zero :
    ¬ IsRotationWithin rotationTolerance (0 : Mat3) := by
  rintro ⟨-, hdet⟩
  have h0 : (0 : Mat3).det = 0 := Matrix.det_zero ⟨0⟩
  rw [h0] at hdet
  unfold rotationTolerance at hdet
  rw [abs_of_nonpos (by norm_num)] at hdet
  norm_num at hdet

/-- Exact orthonormality and unit determinant give the toleranced
bounds. -/
lemma rotation_entry_bounds {M : Mat3} (h : M * M.transpose = 1)
    (hdet : M.det = 1) :
    (∀ i j, |(M * M.transpose - 1) i j| ≤ 1e-9) ∧ |M.det - 1| ≤ 1e-9 := by
  constructor
  · intro i j
    rw [h, sub_self, Matrix.zero_apply, abs_zero]
    norm_num
  · rw [hdet, sub_self, abs_zero]
    norm_num

/-- C7: `GetCubicRotations` has exactly 6 entries with pairwise distinct
face ids, and every entry `R` satisfies `R·Rᵀ = I` within `1e-9` and
`det R = +1` within `1e-9` (the table is a constant definition, so it is
identical on every call and never mutated). -/
theorem cubic_rotations_entries :
    GetCubicRotations.length = 6 ∧
    (GetCubicRotations.map Prod.fst).Nodup ∧
    ∀ e ∈ GetCubicRotations,
      (∀ i j, |(e.2 * e.2.transpose - 1) i j| ≤ 1e-9) ∧
      |e.2.det - 1| ≤ 1e-9 := by
  refine ⟨rfl, ?_, ?_⟩
  · show ([0, 1, 2, 3, 4, 5] : List ℤ).Nodup
    decide
  · intro e he
    fin_cases he <;>
      exact rotation_entry_bounds
        (by
          ext i j
          fin_cases i <;> fin_cases j <;>
            (simp only [Matrix.mul_apply, Fin.sum_univ_three,
              Matrix.transpose_apply]
             norm_num [Matrix.one_apply, Fin.ext_iff]))
        (by norm_num [Matrix.det_fin_three])

/-- Witness for C7 at the first table entry and matrix position (0,0). -/
theorem cubic_rotations_entries_witness :
    |((!![1, 0, 0; 0, 1, 0; 0, 0, 1] : Mat3) *
        (!![1, 0, 0; 0, 1, 0; 0, 0, 1] : Mat3).transpose - 1) 0 0| ≤ 1e-9 ∧
    |(!![1, 0, 0; 0, 1, 0; 0, 0, 1] : Mat3).det - 1| ≤ 1e-9 :=
  ⟨(cubic_rotations_entries.2.2 (0, !![1, 0, 0; 0, 1, 0; 0, 0, 1])
      (List.mem_cons_self _ _)).1 0 0,
   (cubic_rotations_entries.2.2 (0, !![1, 0, 0; 0, 1, 0; 0, 0, 1])
      (List.mem_cons_self _ _)).2⟩

/-- C9: both resampler entry points fail with `InvalidRotationMatrix`
whenever the rotation is not orthonormal within tolerance (this check
comes first, in the order §4.4 lists the failure conditions), and fail
with `InvalidCameraDimensions` whenever the rotation passes but either
camera has non-positive width or height. -/
theorem resampler_validation (sphere_camera : Camera)
    (sphere_bitmap : Bitmap) (rotation : Mat3) (pinhole_camera : Camera) :
    (¬ IsRotationWithin rotationTolerance rotation →
      SphericalToPatch sphere_camera sphere_bitmap rotation pinhole_camera =
          .error .InvalidRotationMatrix ∧
        SphericalToTangent sphere_camera sphere_bitmap rotation
            pinhole_camera = .error .InvalidRotationMatrix) ∧
    (IsRotationWithin rotationTolerance rotation →
      ¬ (dimsOk sphere_camera ∧ dimsOk pinhole_camera) →
      SphericalToPatch sphere_camera sphere_bitmap rotation pinhole_camera =
          .error .InvalidCameraDimensions ∧
        SphericalToTangent sphere_camera sphere_bitmap rotation
            pinhole_camera = .error .InvalidCameraDimensions) := by
  constructor
  · intro h
    constructor
    · unfold SphericalToPatch
      rw [if_neg h]
    · unfold SphericalToTangent
      rw [if_neg h]
  · intro h hd
    constructor
    · unfold SphericalToPatch
      rw [if_pos h, if_neg hd]
    · unfold SphericalToTangent
      rw [if_pos h, if_neg hd]

/-- Witness for C9: the zero matrix is rejected as a rotation, and with
the identity rotation a sphere camera of width 0 is rejected for its
dimensions. -/
theorem resampler_validation_witness :
    SphericalToPatch (SphereCamera 4 2) ⟨4, 2, fun _ _ => 0⟩ 0
        (SphereCamera 4 2) = .error .InvalidRotationMatrix ∧
    SphericalToTangent (SphereCamera 4 2) ⟨4, 2, fun _ _ => 0⟩ 0
        (SphereCamera 4 2) = .error .InvalidRotationMatrix ∧
    SphericalToPatch (SphereCamera 0 2) ⟨4, 2, fun _ _ => 0⟩ 1
        (SphereCamera 4 2) = .error .InvalidCameraDimensions ∧
    SphericalToTangent (SphereCamera 0 2) ⟨4, 2, fun _ _ => 0⟩ 1
        (SphereCamera 4 2) = .error .InvalidCameraDimensions := by
  have h1 := (resampler_validation (SphereCamera 4 2) ⟨4, 2, fun _ _ => 0⟩ 0
    (SphereCamera 4 2)).1 not_isRotationWithin_zero
  have h2 := (resampler_validation (SphereCamera 0 2) ⟨4, 2, fun _ _ => 0⟩ 1
    (SphereCamera 4 2)).2 isRotationWithin_one
    (by
      rintro ⟨⟨hw, -⟩, -⟩
      have : ¬ ((0 : ℤ) < 0) := by norm_num
      exact this hw)
  exact ⟨h1.1, h1.2, h2.1, h2.2⟩

/-- Counterexample to C9 as stated: with a sphere camera of non-positive
width AND a non-orthonormal rotation, the result is
`InvalidRotationMatrix` (the rotation check comes first), not the
`InvalidCameraDimensions` failure the claim requires whenever a camera
dimension is non-positive. -/
theorem resampler_validation_order_cex :
    SphericalToPatch (SphereCamera 0 2) ⟨4, 2, fun _ _ => 0⟩ 0
        (SphereCamera 4 2) = .error .InvalidRotationMatrix ∧
    (Except.error .InvalidRotationMatrix : Except SphereError Bitmap) ≠
      .error .InvalidCameraDimensions := by
  constructor
  · unfold SphericalToPatch
    rw [if_neg not_isRotationWithin_zero]
  · intro h
    exact absurd (Except.error.inj h) (by intro hk; cases hk)

/-- An id whose rotation is present, orthonormal within tolerance, and
used with valid cameras yields its output path. -/
lemma pinholeOutcome_ok (sc : Camera) (sbmp : Bitmap) (pc : Camera)
    (output_path : String) (rotations : List (ℤ × Mat3)) (tp : Bool)
    (id : ℤ) (R : Mat3) (hlook : rotations.lookup id = some R)
    (hrot : IsRotationWithin rotationTolerance R)
    (hdims : dimsOk sc ∧ dimsOk pc) :
    pinholeOutcome sc sbmp pc output_path rotations tp id =
      .ok (pinholeImagePath output_path id) := by
  unfold pinholeOutcome
  rw [hlook]
  cases tp
  · show (SphericalToPatch sc sbmp R pc).map _ = _
    unfold SphericalToPatch
    rw [if_pos hrot, if_pos hdims]
    rfl
  · show (SphericalToTangent sc sbmp R pc).map _ = _
    unfold SphericalToTangent
    rw [if_pos hrot, if_pos hdims]
    rfl

/-- An id with no rotation entry yields the `MissingRotation` outcome. -/
lemma pinholeOutcome_missing (sc : Camera) (sbmp : Bitmap) (pc : Camera)
    (output_path : String) (rotations : List (ℤ × Mat3)) (tp : Bool)
    (id : ℤ) (hlook : rotations.lookup id = none) :
    pinholeOutcome sc sbmp pc output_path rotations tp id =
      .error .MissingRotation := by
  unfold pinholeOutcome
  rw [hlook]

/-- Counterexample to C1 as stated: image id 7 has an associated rotation
in the rotations map (the zero matrix), yet the batch result for it is
the `InvalidRotationMatrix` failure outcome, not an output path. -/
theorem spherical_to_pinhole_present_rotation_not_enough :
    ((([(7, (0 : Mat3))]) : List (ℤ × Mat3)).lookup 7).isSome = true ∧
    SphericalToPinhole (SphereCamera 4 2) ⟨4, 2, fun _ _ => 0⟩ "sphere.jpg"
        (SphereCamera 4 2) "out" [7] [(7, (0 : Mat3))] =
      [.error .InvalidRotationMatrix] := by
  constructor
  · rfl
  · show [pinholeOutcome (SphereCamera 4 2) ⟨4, 2, fun _ _ => 0⟩
      (SphereCamera 4 2) "out" [(7, (0 : Mat3))] true 7] = _
    have houtcome : pinholeOutcome (SphereCamera 4 2) ⟨4, 2, fun _ _ => 0⟩
        (SphereCamera 4 2) "out" [(7, (0 : Mat3))] true 7 =
        .error .InvalidRotationMatrix := by
      unfold pinholeOutcome
      rw [show (([(7, (0 : Mat3))] : List (ℤ × Mat3)).lookup 7) =
          some (0 : Mat3) from rfl]
      show (SphericalToTangent (SphereCamera 4 2) ⟨4, 2, fun _ _ => 0⟩
        (0 : Mat3) (SphereCamera 4 2)).map _ = _
      unfold SphericalToTangent
      rw [if_neg not_isRotationWithin_zero]
      rfl
    rw [houtcome]

/-- C1 (amended): if both cameras have positive dimensions and every id
in the input sequence has an associated rotation that passes the
orthonormality check, `SphericalToPinhole` returns exactly one output
path per input id, in the same order as the input id sequence. -/
theorem spherical_to_pinhole_paths (sc : Camera) (sbmp : Bitmap)
    (sphere_path : String) (pc : Camera) (output_path : String)
    (image_ids : List ℤ) (rotations : List (ℤ × Mat3)) (tp : Bool)
    (hsc : dimsOk sc) (hpc : dimsOk pc)
    (hall : ∀ id ∈ image_ids, ∃ R, rotations.lookup id = some R ∧
      IsRotationWithin rotationTolerance R) :
    SphericalToPinhole sc sbmp sphere_path pc output_path image_ids
        rotations tp =
      image_ids.map (fun id => .ok (pinholeImagePath output_path id)) := by
  unfold SphericalToPinhole
  induction image_ids with
  | nil => rfl
  | cons a as ih =>
    simp only [List.map_cons]
    obtain ⟨R, hlook, hrot⟩ := hall a (List.mem_cons_self _ _)
    rw [pinholeOutcome_ok sc sbmp pc output_path rotations tp a R hlook hrot
      ⟨hsc, hpc⟩]
    rw [ih (fun id hid => hall id (List.mem_cons_of_mem _ hid))]

/-- Witness for C1 (amended): 3 ids with identity rotations yield the 3
output paths in input order. -/
theorem spherical_to_pinhole_paths_witness :
    SphericalToPinhole (SphereCamera 4 2) ⟨4, 2, fun _ _ => 0⟩ "sphere.jpg"
        (SphereCamera 4 2) "out" [1, 2, 3]
        [(1, (1 : Mat3)), (2, (1 : Mat3)), (3, (1 : Mat3))] =
      ([1, 2, 3] : List ℤ).map
        (fun id => .ok (pinholeImagePath "out" id)) := by
  apply spherical_to_pinhole_paths
  · exact ⟨by norm_num [SphereCamera], by norm_num [SphereCamera]⟩
  · exact ⟨by norm_num [SphereCamera], by norm_num [SphereCamera]⟩
  · intro id hid
    fin_cases hid
    · exact ⟨1, rfl, isRotationWithin_one⟩
    · exact ⟨1, rfl, isRotationWithin_one⟩
    · exact ⟨1, rfl, isRotationWithin_one⟩

/-- C2: the batch result has one outcome per input id; an id whose
rotation is absent yields the `MissingRotation` outcome at its own
position — the remaining ids are still processed, and any id with a
valid rotation still succeeds with its output path. -/
theorem spherical_to_pinhole_outcomes (sc : Camera) (sbmp : Bitmap)
    (sphere_path : String) (pc : Camera) (output_path : String)
    (image_ids : List ℤ) (rotations : List (ℤ × Mat3)) (tp : Bool)
    (hsc : dimsOk sc) (hpc : dimsOk pc) :
    (SphericalToPinhole sc sbmp sphere_path pc output_path image_ids
        rotations tp).length = image_ids.length ∧
    ∀ i, i < image_ids.length →
      (rotations.lookup (image_ids.getD i 0) = none →
        (SphericalToPinhole sc sbmp sphere_path pc output_path image_ids
            rotations tp).getD i (.ok "") = .error .MissingRotation) ∧
      (∀ R, rotations.lookup (image_ids.getD i 0) = some R →
        IsRotationWithin rotationTolerance R →
        (SphericalToPinhole sc sbmp sphere_path pc output_path image_ids
            rotations tp).getD i (.ok "") =
          .ok (pinholeImagePath output_path (image_ids.getD i 0))) := by
  constructor
  · exact List.length_map _ _
  · intro i hi
    have hgd : (SphericalToPinhole sc sbmp sphere_path pc output_path
        image_ids rotations tp).getD i (.ok "") =
        pinholeOutcome sc sbmp pc output_path rotations tp
          (image_ids.getD i 0) := by
      unfold SphericalToPinhole
      rw [List.getD_eq_getElem _ _ (by simpa using hi), List.getElem_map,
        List.getD_eq_getElem _ _ hi]
    rw [hgd]
    constructor
    · intro hnone
      exact pinholeOutcome_missing sc sbmp pc output_path rotations tp _ hnone
    · intro R hlook hrot
      exact pinholeOutcome_ok sc sbmp pc output_path rotations tp _ R hlook
        hrot ⟨hsc, hpc⟩

/-- Witness for C2: ids `[1, 2, 3]` with the rotation for 2 absent — the
second outcome is `MissingRotation` while the first and third succeed. -/
theorem spherical_to_pinhole_outcomes_witness :
    (SphericalToPinhole (SphereCamera 4 2) ⟨4, 2, fun _ _ => 0⟩ "sphere.jpg"
        (SphereCamera 4 2) "out" [1, 2, 3]
        [(1, (1 : Mat3)), (3, (1 : Mat3))]).getD 1 (.ok "") =
      .error .MissingRotation ∧
    (SphericalToPinhole (SphereCamera 4 2) ⟨4, 2, fun _ _ => 0⟩ "sphere.jpg"
        (SphereCamera 4 2) "out" [1, 2, 3]
        [(1, (1 : Mat3)), (3, (1 : Mat3))]).getD 0 (.ok "") =
      .ok (pinholeImagePath "out" (([1, 2, 3] : List ℤ).getD 0 0)) ∧
    (SphericalToPinhole (SphereCamera 4 2) ⟨4, 2, fun _ _ => 0⟩ "sphere.jpg"
        (SphereCamera 4 2) "out" [1, 2, 3]
        [(1, (1 : Mat3)), (3, (1 : Mat3))]).getD 2 (.ok "") =
      .ok (pinholeImagePath "out" (([1, 2, 3] : List ℤ).getD 2 0)) := by
  have h := spherical_to_pinhole_outcomes (SphereCamera 4 2)
    ⟨4, 2, fun _ _ => 0⟩ "sphere.jpg" (SphereCamera 4 2) "out" [1, 2, 3]
    [(1, (1 : Mat3)), (3, (1 : Mat3))] true
    ⟨by norm_num [SphereCamera], by norm_num [SphereCamera]⟩ ⟨by norm_num [SphereCamera], by norm_num [SphereCamera]⟩
  exact ⟨(h.2 1 (by norm_num)).1 rfl,
         (h.2 0 (by norm_num)).2 1 rfl isRotationWithin_one,
         (h.2 2 (by norm_num)).2 1 rfl isRotationWithin_one⟩

/-- C10: calling `SphericalToPinhole` without the `tangent_proj` argument
is identical to passing `tangent_proj = true`, and calling
`PinholeCamera` or `PinholeFocalLength` without a `field_of_view`
argument is identical to passing `field_of_view = 45.0` — the header's
default arguments. -/
theorem default_argument_behaviour (sc : Camera) (sbmp : Bitmap)
    (sphere_path : String) (pc : Camera) (output_path : String)
    (image_ids : List ℤ) (rotations : List (ℤ × Mat3)) (w h : ℤ) :
    SphericalToPinhole sc sbmp sphere_path pc output_path image_ids
        rotations =
      SphericalToPinhole sc sbmp sphere_path pc output_path image_ids
        rotations true ∧
    PinholeCamera w h = PinholeCamera w h 45.0 ∧
    PinholeFocalLength h = PinholeFocalLength h 45.0 :=
  ⟨rfl, rfl, rfl⟩

end SphereCamera
